import Mathlib

/-!
# cryptos/aes_crypter.go

A shallow embedding of the package `cryptos`: PKCS#5 padding, the cache `keyMap` of cipher
contexts filled by `getBlock`, and `AesEncrypt`/`AesDecrypt`, which run the cached CBC
encrypter and decrypter. The parts of the Go standard library the package calls (crypto/aes,
crypto/cipher) are embedded with it, so that every definition can be evaluated.

A `cipher.BlockMode` is a Go pointer to a mutable object: the process state is `keyMap`
together with the heap of block modes, and every function takes the state and returns the
new one.
-/

namespace Cryptos

/-- A Go `byte`: an unsigned 8-bit value. -/
abbrev Byte := Fin 256

/-! ## crypto/aes: the AES block cipher of FIPS-197

`aes.NewCipher` and the `Encrypt`/`Decrypt` methods of the block it returns
belong to the Go standard library. They are embedded here as the algorithm
of FIPS-197 (`Cipher`, `InvCipher`, `KeyExpansion`), on a state of 16 bytes
held column by column.
-/

/-- The AES substitution table (FIPS-197, figure 7). -/
def sboxTable : List Byte :=
  [
   0x63, 0x7c, 0x77, 0x7b, 0xf2, 0x6b, 0x6f, 0xc5, 0x30, 0x01, 0x67, 0x2b, 0xfe, 0xd7, 0xab, 0x76,
   0xca, 0x82, 0xc9, 0x7d, 0xfa, 0x59, 0x47, 0xf0, 0xad, 0xd4, 0xa2, 0xaf, 0x9c, 0xa4, 0x72, 0xc0,
   0xb7, 0xfd, 0x93, 0x26, 0x36, 0x3f, 0xf7, 0xcc, 0x34, 0xa5, 0xe5, 0xf1, 0x71, 0xd8, 0x31, 0x15,
   0x04, 0xc7, 0x23, 0xc3, 0x18, 0x96, 0x05, 0x9a, 0x07, 0x12, 0x80, 0xe2, 0xeb, 0x27, 0xb2, 0x75,
   0x09, 0x83, 0x2c, 0x1a, 0x1b, 0x6e, 0x5a, 0xa0, 0x52, 0x3b, 0xd6, 0xb3, 0x29, 0xe3, 0x2f, 0x84,
   0x53, 0xd1, 0x00, 0xed, 0x20, 0xfc, 0xb1, 0x5b, 0x6a, 0xcb, 0xbe, 0x39, 0x4a, 0x4c, 0x58, 0xcf,
   0xd0, 0xef, 0xaa, 0xfb, 0x43, 0x4d, 0x33, 0x85, 0x45, 0xf9, 0x02, 0x7f, 0x50, 0x3c, 0x9f, 0xa8,
   0x51, 0xa3, 0x40, 0x8f, 0x92, 0x9d, 0x38, 0xf5, 0xbc, 0xb6, 0xda, 0x21, 0x10, 0xff, 0xf3, 0xd2,
   0xcd, 0x0c, 0x13, 0xec, 0x5f, 0x97, 0x44, 0x17, 0xc4, 0xa7, 0x7e, 0x3d, 0x64, 0x5d, 0x19, 0x73,
   0x60, 0x81, 0x4f, 0xdc, 0x22, 0x2a, 0x90, 0x88, 0x46, 0xee, 0xb8, 0x14, 0xde, 0x5e, 0x0b, 0xdb,
   0xe0, 0x32, 0x3a, 0x0a, 0x49, 0x06, 0x24, 0x5c, 0xc2, 0xd3, 0xac, 0x62, 0x91, 0x95, 0xe4, 0x79,
   0xe7, 0xc8, 0x37, 0x6d, 0x8d, 0xd5, 0x4e, 0xa9, 0x6c, 0x56, 0xf4, 0xea, 0x65, 0x7a, 0xae, 0x08,
   0xba, 0x78, 0x25, 0x2e, 0x1c, 0xa6, 0xb4, 0xc6, 0xe8, 0xdd, 0x74, 0x1f, 0x4b, 0xbd, 0x8b, 0x8a,
   0x70, 0x3e, 0xb5, 0x66, 0x48, 0x03, 0xf6, 0x0e, 0x61, 0x35, 0x57, 0xb9, 0x86, 0xc1, 0x1d, 0x9e,
   0xe1, 0xf8, 0x98, 0x11, 0x69, 0xd9, 0x8e, 0x94, 0x9b, 0x1e, 0x87, 0xe9, 0xce, 0x55, 0x28, 0xdf,
   0x8c, 0xa1, 0x89, 0x0d, 0xbf, 0xe6, 0x42, 0x68, 0x41, 0x99, 0x2d, 0x0f, 0xb0, 0x54, 0xbb, 0x16]

/-- The inverse AES substitution table (FIPS-197, figure 14). -/
def invSboxTable : List Byte :=
  [
   0x52, 0x09, 0x6a, 0xd5, 0x30, 0x36, 0xa5, 0x38, 0xbf, 0x40, 0xa3, 0x9e, 0x81, 0xf3, 0xd7, 0xfb,
   0x7c, 0xe3, 0x39, 0x82, 0x9b, 0x2f, 0xff, 0x87, 0x34, 0x8e, 0x43, 0x44, 0xc4, 0xde, 0xe9, 0xcb,
   0x54, 0x7b, 0x94, 0x32, 0xa6, 0xc2, 0x23, 0x3d, 0xee, 0x4c, 0x95, 0x0b, 0x42, 0xfa, 0xc3, 0x4e,
   0x08, 0x2e, 0xa1, 0x66, 0x28, 0xd9, 0x24, 0xb2, 0x76, 0x5b, 0xa2, 0x49, 0x6d, 0x8b, 0xd1, 0x25,
   0x72, 0xf8, 0xf6, 0x64, 0x86, 0x68, 0x98, 0x16, 0xd4, 0xa4, 0x5c, 0xcc, 0x5d, 0x65, 0xb6, 0x92,
   0x6c, 0x70, 0x48, 0x50, 0xfd, 0xed, 0xb9, 0xda, 0x5e, 0x15, 0x46, 0x57, 0xa7, 0x8d, 0x9d, 0x84,
   0x90, 0xd8, 0xab, 0x00, 0x8c, 0xbc, 0xd3, 0x0a, 0xf7, 0xe4, 0x58, 0x05, 0xb8, 0xb3, 0x45, 0x06,
   0xd0, 0x2c, 0x1e, 0x8f, 0xca, 0x3f, 0x0f, 0x02, 0xc1, 0xaf, 0xbd, 0x03, 0x01, 0x13, 0x8a, 0x6b,
   0x3a, 0x91, 0x11, 0x41, 0x4f, 0x67, 0xdc, 0xea, 0x97, 0xf2, 0xcf, 0xce, 0xf0, 0xb4, 0xe6, 0x73,
   0x96, 0xac, 0x74, 0x22, 0xe7, 0xad, 0x35, 0x85, 0xe2, 0xf9, 0x37, 0xe8, 0x1c, 0x75, 0xdf, 0x6e,
   0x47, 0xf1, 0x1a, 0x71, 0x1d, 0x29, 0xc5, 0x89, 0x6f, 0xb7, 0x62, 0x0e, 0xaa, 0x18, 0xbe, 0x1b,
   0xfc, 0x56, 0x3e, 0x4b, 0xc6, 0xd2, 0x79, 0x20, 0x9a, 0xdb, 0xc0, 0xfe, 0x78, 0xcd, 0x5a, 0xf4,
   0x1f, 0xdd, 0xa8, 0x33, 0x88, 0x07, 0xc7, 0x31, 0xb1, 0x12, 0x10, 0x59, 0x27, 0x80, 0xec, 0x5f,
   0x60, 0x51, 0x7f, 0xa9, 0x19, 0xb5, 0x4a, 0x0d, 0x2d, 0xe5, 0x7a, 0x9f, 0x93, 0xc9, 0x9c, 0xef,
   0xa0, 0xe0, 0x3b, 0x4d, 0xae, 0x2a, 0xf5, 0xb0, 0xc8, 0xeb, 0xbb, 0x3c, 0x83, 0x53, 0x99, 0x61,
   0x17, 0x2b, 0x04, 0x7e, 0xba, 0x77, 0xd6, 0x26, 0xe1, 0x69, 0x14, 0x63, 0x55, 0x21, 0x0c, 0x7d]

/-- SubBytes on one byte. -/
def subByte (a : Byte) : Byte := sboxTable.getD a.val 0

/-- InvSubBytes on one byte. -/
def invSubByte (a : Byte) : Byte := invSboxTable.getD a.val 0

/-- Multiplication by `x` in GF(2^8) modulo `x^8 + x^4 + x^3 + x + 1`. -/
def xtime (a : Byte) : Byte :=
  ⟨((2 * a.val) ^^^ (if 128 ≤ a.val then 0x11b else 0)) % 256, Nat.mod_lt _ (by decide)⟩

/-- Multiplication by 03. -/
def mul3 (a : Byte) : Byte := xtime a ^^^ a

/-- Multiplication by 09. -/
def mul9 (a : Byte) : Byte := xtime (xtime (xtime a)) ^^^ a

/-- Multiplication by 0b. -/
def mul11 (a : Byte) : Byte := xtime (xtime (xtime a)) ^^^ xtime a ^^^ a

/-- Multiplication by 0d. -/
def mul13 (a : Byte) : Byte := xtime (xtime (xtime a)) ^^^ xtime (xtime a) ^^^ a

/-- Multiplication by 0e. -/
def mul14 (a : Byte) : Byte := xtime (xtime (xtime a)) ^^^ xtime (xtime a) ^^^ xtime a

/-- Byte-wise exclusive or of two byte strings, over the shorter of the two
(`subtle.XORBytes`). -/
def xorBytes (x y : List Byte) : List Byte := List.zipWith (· ^^^ ·) x y

/-- SubBytes on a state. -/
def subBytes (s : List Byte) : List Byte := s.map subByte

/-- InvSubBytes on a state. -/
def invSubBytes (s : List Byte) : List Byte := s.map invSubByte

/-- ShiftRows: row `r` of the state is rotated left by `r` columns. -/
def shiftRows : List Byte → List Byte
  | [s0, s1, s2, s3, s4, s5, s6, s7, s8, s9, s10, s11, s12, s13, s14, s15] =>
    [s0, s5, s10, s15, s4, s9, s14, s3, s8, s13, s2, s7, s12, s1, s6, s11]
  | s => s

/-- InvShiftRows: row `r` of the state is rotated right by `r` columns. -/
def invShiftRows : List Byte → List Byte
  | [s0, s1, s2, s3, s4, s5, s6, s7, s8, s9, s10, s11, s12, s13, s14, s15] =>
    [s0, s13, s10, s7, s4, s1, s14, s11, s8, s5, s2, s15, s12, s9, s6, s3]
  | s => s

/-- One column of MixColumns. -/
def mixColumn (a b c d : Byte) : List Byte :=
  [xtime a ^^^ mul3 b ^^^ c ^^^ d,
   a ^^^ xtime b ^^^ mul3 c ^^^ d,
   a ^^^ b ^^^ xtime c ^^^ mul3 d,
   mul3 a ^^^ b ^^^ c ^^^ xtime d]

/-- One column of InvMixColumns. -/
def invMixColumn (a b c d : Byte) : List Byte :=
  [mul14 a ^^^ mul11 b ^^^ mul13 c ^^^ mul9 d,
   mul9 a ^^^ mul14 b ^^^ mul11 c ^^^ mul13 d,
   mul13 a ^^^ mul9 b ^^^ mul14 c ^^^ mul11 d,
   mul11 a ^^^ mul13 b ^^^ mul9 c ^^^ mul14 d]

/-- MixColumns: every column of the state is multiplied by the fixed polynomial. -/
def mixColumns : List Byte → List Byte
  | [s0, s1, s2, s3, s4, s5, s6, s7, s8, s9, s10, s11, s12, s13, s14, s15] =>
    mixColumn s0 s1 s2 s3 ++ mixColumn s4 s5 s6 s7 ++
      mixColumn s8 s9 s10 s11 ++ mixColumn s12 s13 s14 s15
  | s => s

/-- InvMixColumns: every column is multiplied by the inverse polynomial. -/
def invMixColumns : List Byte → List Byte
  | [s0, s1, s2, s3, s4, s5, s6, s7, s8, s9, s10, s11, s12, s13, s14, s15] =>
    invMixColumn s0 s1 s2 s3 ++ invMixColumn s4 s5 s6 s7 ++
      invMixColumn s8 s9 s10 s11 ++ invMixColumn s12 s13 s14 s15
  | s => s

/-- The round constants `Rcon[1..10]` (first byte of each word). -/
def rcon : List Byte := [0x01, 0x02, 0x04, 0x08, 0x10, 0x20, 0x40, 0x80, 0x1b, 0x36]

/-- Word `i` (4 bytes) of a key schedule. -/
def word (w : List Byte) (i : Nat) : List Byte := (w.drop (4 * i)).take 4

/-- RotWord: a cyclic rotation of the four bytes of a word. -/
def rotWord : List Byte → List Byte
  | [a, b, c, d] => [b, c, d, a]
  | t => t

/-- One step of KeyExpansion: appends word `i` to the schedule `w`, for a key
of `nk` words. -/
def expandStep (nk : Nat) (w : List Byte) (i : Nat) : List Byte :=
  let temp := word w (i - 1)
  let temp :=
    if i % nk = 0 then
      xorBytes (subBytes (rotWord temp)) [rcon.getD (i / nk - 1) 0, 0, 0, 0]
    else if 6 < nk ∧ i % nk = 4 then subBytes temp
    else temp
  w ++ xorBytes (word w (i - nk)) temp

/-- The loop of KeyExpansion: `n` more words, starting at word `i`. -/
def expandLoop (nk : Nat) : Nat → Nat → List Byte → List Byte
  | 0, _, w => w
  | n + 1, i, w => expandLoop nk n (i + 1) (expandStep nk w i)

/-- KeyExpansion: the `4 * (Nr + 1)` words of the key schedule, `Nr = Nk + 6`. -/
def expandKey (key : List Byte) : List Byte :=
  let nk := key.length / 4
  expandLoop nk (4 * (nk + 7) - nk) nk key

/-- Round key `r`: bytes `16 r .. 16 r + 15` of the schedule. -/
def roundKey (w : List Byte) (r : Nat) : List Byte :=
  (List.range 16).map fun j => w.getD (16 * r + j) 0

/-- One full round of the cipher. -/
def aesRound (w : List Byte) (s : List Byte) (r : Nat) : List Byte :=
  xorBytes (mixColumns (shiftRows (subBytes s))) (roundKey w r)

/-- One full round of the inverse cipher. -/
def aesInvRound (w : List Byte) (s : List Byte) (r : Nat) : List Byte :=
  invMixColumns (xorBytes (invSubBytes (invShiftRows s)) (roundKey w r))

/-- The type `aesCipher` of crypto/aes: the expanded key and the number of rounds. -/
structure aesCipher where
  rounds : Nat
  enc : List Byte
  deriving DecidableEq

/-- The method `Encrypt` of an AES block on one 16-byte block (`Cipher`). -/
def aesCipher.Encrypt (c : aesCipher) (src : List Byte) : List Byte :=
  let s := xorBytes src (roundKey c.enc 0)
  let s := (List.range' 1 (c.rounds - 1)).foldl (aesRound c.enc) s
  xorBytes (shiftRows (subBytes s)) (roundKey c.enc c.rounds)

/-- The method `Decrypt` of an AES block on one 16-byte block (`InvCipher`). -/
def aesCipher.Decrypt (c : aesCipher) (src : List Byte) : List Byte :=
  let s := xorBytes src (roundKey c.enc c.rounds)
  let s := (List.range' 1 (c.rounds - 1)).reverse.foldl (aesInvRound c.enc) s
  xorBytes (invSubBytes (invShiftRows s)) (roundKey c.enc 0)

/-- The function `aes.NewCipher`: fails with a `KeySizeError` unless the key has 16, 24
or 32 bytes. -/
def NewCipher (key : List Byte) : Except String aesCipher :=
  if key.length = 16 ∨ key.length = 24 ∨ key.length = 32 then
    .ok { rounds := key.length / 4 + 6, enc := expandKey key }
  else
    .error ("crypto/aes: invalid key size " ++ toString key.length)

/-- The rounds of the cipher regrouped so that each group is undone by one round of the
inverse cipher: MixColumns, AddRoundKey, then SubBytes and ShiftRows. -/
def aesRoundShifted (w : List Byte) (s : List Byte) (r : Nat) : List Byte :=
  shiftRows (subBytes (xorBytes (mixColumns s) (roundKey w r)))

/-! ## Go values and results -/

/-- The result of running a Go call: it returns a value or it panics. -/
inductive Outcome (α : Type) where
  | ok (v : α)
  | panic (msg : String)
  deriving DecidableEq

/-- A Go result pair `([]byte, error)`: `none` in the first place is the nil slice, `none`
in the second place is the nil error; an error is held by its message. -/
abbrev Ret := Option (List Byte) × Option String

/-- The conversion `byte(n)` of a Go `int`: the low 8 bits. -/
def toByte (n : Int) : Byte := ⟨(n % 256).toNat, by omega⟩

/-- The builtin `copy(dst, src)`: overwrites the first `min(len(dst), len(src))` bytes. -/
def copyBytes (dst src : List Byte) : List Byte := src.take dst.length ++ dst.drop src.length

/-! ## crypto/cipher: CBC mode -/

/-- The block size of AES, `aes.BlockSize`. -/
def BlockSize : Nat := 16

/-- The struct `cbc` of crypto/cipher: the block cipher, its block size and the chaining
value `iv`, which every call of `CryptBlocks` replaces. -/
structure cbc where
  b : aesCipher
  blockSize : Nat
  iv : List Byte
  deriving DecidableEq

/-- A value of the interface `cipher.BlockMode`: a CBC encrypter or a CBC decrypter. -/
inductive BlockMode where
  | cbcEncrypter (x : cbc)
  | cbcDecrypter (x : cbc)
  deriving DecidableEq

/-- The function `cipher.NewCBCEncrypter`: the encrypter starts with a copy of `iv`. -/
def NewCBCEncrypter (b : aesCipher) (iv : List Byte) : Outcome BlockMode :=
  if iv.length ≠ BlockSize then
    .panic "cipher.NewCBCEncrypter: IV length must equal block size"
  else .ok (.cbcEncrypter { b := b, blockSize := BlockSize, iv := iv })

/-- The function `cipher.NewCBCDecrypter`: the decrypter starts with a copy of `iv`. -/
def NewCBCDecrypter (b : aesCipher) (iv : List Byte) : Outcome BlockMode :=
  if iv.length ≠ BlockSize then
    .panic "cipher.NewCBCDecrypter: IV length must equal block size"
  else .ok (.cbcDecrypter { b := b, blockSize := BlockSize, iv := iv })

/-- The loop of `(*cbcEncrypter).CryptBlocks` over `n` blocks of `src`: each block is
xored with the chaining value and encrypted, and becomes the next chaining value.
Returns the bytes written and the last chaining value. -/
def encryptBlocks (b : aesCipher) (bs : Nat) : Nat → List Byte → List Byte → List Byte × List Byte
  | 0, iv, _ => ([], iv)
  | n + 1, iv, src =>
    let blk := b.Encrypt (xorBytes (src.take bs) iv)
    let rest := encryptBlocks b bs n blk (src.drop bs)
    (blk ++ rest.1, rest.2)

/-- The loop of `(*cbcDecrypter).CryptBlocks` over `n` blocks of `src`: each block is
decrypted and xored with the ciphertext block before it, the first one with the chaining
value. Returns the bytes written and the last ciphertext block. -/
def decryptBlocks (b : aesCipher) (bs : Nat) : Nat → List Byte → List Byte → List Byte × List Byte
  | 0, iv, _ => ([], iv)
  | n + 1, iv, src =>
    let blk := xorBytes (b.Decrypt (src.take bs)) iv
    let rest := decryptBlocks b bs n (src.take bs) (src.drop bs)
    (blk ++ rest.1, rest.2)

/-- The method `CryptBlocks(dst, src)` of a `cipher.BlockMode`: returns the new contents of `dst`
and the block mode with its chaining value saved for the next call. -/
def BlockMode.CryptBlocks (m : BlockMode) (dst src : List Byte) : Outcome (List Byte × BlockMode) :=
  match m with
  | .cbcEncrypter x =>
    if x.blockSize = 0 then .panic "runtime error: integer divide by zero"
    else if src.length % x.blockSize ≠ 0 then .panic "crypto/cipher: input not full blocks"
    else if dst.length < src.length then .panic "crypto/cipher: output smaller than input"
    else
      let r := encryptBlocks x.b x.blockSize (src.length / x.blockSize) x.iv src
      .ok (r.1 ++ dst.drop src.length, .cbcEncrypter { x with iv := copyBytes x.iv r.2 })
  | .cbcDecrypter x =>
    if x.blockSize = 0 then .panic "runtime error: integer divide by zero"
    else if src.length % x.blockSize ≠ 0 then .panic "crypto/cipher: input not full blocks"
    else if dst.length < src.length then .panic "crypto/cipher: output smaller than input"
    else
      let r := decryptBlocks x.b x.blockSize (src.length / x.blockSize) x.iv src
      .ok (r.1 ++ dst.drop src.length, .cbcDecrypter { x with iv := copyBytes x.iv r.2 })

/-! ## cryptos/aes_crypter.go -/

/-- The struct `blockInfo`. The two block modes are interface values holding pointers: they
are held as addresses into the heap of the process state, `none` being the nil interface. -/
structure blockInfo where
  errMsg : String
  success : Bool
  blockSize : Int
  decryptor : Option Nat
  encryptor : Option Nat
  deriving DecidableEq

/-- The state of the process that the package reads and writes: the package variable
`keyMap` (a Go map from the key string to its `blockInfo`) and the heap of
block modes that the stored `blockInfo` values point into. -/
structure State where
  keyMap : List (List Byte × blockInfo)
  heap : List BlockMode
  deriving DecidableEq

/-- The state of a fresh process: `keyMap` is empty. -/
def State.init : State := { keyMap := [], heap := [] }

/-- The map assignment `keyMap[k] = v`. -/
def mapStore (m : List (List Byte × blockInfo)) (k : List Byte) (v : blockInfo) :
    List (List Byte × blockInfo) :=
  (k, v) :: m.filter fun e => e.1 != k

/-- The function `_PKCS5Padding`: appends `padding` bytes of value `byte(padding)`, where
`padding = blockSize - len(ciphertext) % blockSize`. -/
def _PKCS5Padding (ciphertext : List Byte) (blockSize : Int) : Outcome (List Byte) :=
  if blockSize = 0 then .panic "runtime error: integer divide by zero"
  else
    let padding : Int := blockSize - Int.tmod ciphertext.length blockSize
    if padding < 0 then .panic "bytes: negative Repeat count"
    else
      let padText := List.replicate padding.toNat (toByte padding)
      .ok (ciphertext ++ padText)

/-- The function `_PKCS5UnPadding`: reads the last byte `unPadding` and returns
`origData[:(length - unPadding)]`. It panics on empty data (the index `length-1`) and when
`unPadding` exceeds the length (the slice bound). -/
def _PKCS5UnPadding (origData : List Byte) : Outcome (List Byte) :=
  let length := origData.length
  match origData.getLast? with
  | none => .panic "runtime error: index out of range"
  | some last =>
    let unPadding := last.val
    if length < unPadding then .panic "runtime error: slice bounds out of range"
    else .ok (origData.take (length - unPadding))

/-- The function `getBlock`, using get block speed up the encryption and decryption. -/
def getBlock (s : State) (key : List Byte) : Outcome blockInfo × State :=
  match s.keyMap.lookup key with
  | some v => (.ok v, s)
  | none =>
    match NewCipher key with
    | .error err =>
      (.ok { errMsg := err, success := false, blockSize := 0, decryptor := none,
             encryptor := none }, s)
    | .ok block =>
      let blockSize := BlockSize
      if key.length < blockSize then (.panic "runtime error: slice bounds out of range", s)
      else
        match NewCBCDecrypter block (key.take blockSize) with
        | .panic msg => (.panic msg, s)
        | .ok decryptor =>
          match NewCBCEncrypter block (key.take blockSize) with
          | .panic msg => (.panic msg, s)
          | .ok encryptor =>
            let result : blockInfo :=
              { errMsg := "", success := true, blockSize := blockSize,
                decryptor := some s.heap.length, encryptor := some (s.heap.length + 1) }
            (.ok result,
              { keyMap := mapStore s.keyMap key result,
                heap := s.heap ++ [decryptor, encryptor] })

/-- A call `m.CryptBlocks(dst, src)` through the interface value at address `a`. -/
def callCryptBlocks (s : State) (a : Option Nat) (dst src : List Byte) :
    Outcome (List Byte) × State :=
  match a with
  | none => (.panic "runtime error: invalid memory address or nil pointer dereference", s)
  | some p =>
    match s.heap[p]? with
    | none => (.panic "runtime error: invalid memory address or nil pointer dereference", s)
    | some m =>
      match m.CryptBlocks dst src with
      | .panic msg => (.panic msg, s)
      | .ok (out, m1) => (.ok out, { s with heap := s.heap.set p m1 })

/-- The function `AesEncrypt`. -/
def AesEncrypt (s : State) (origDataStr keyStr : List Byte) : Outcome Ret × State :=
  match getBlock s keyStr with
  | (.panic msg, s1) => (.panic msg, s1)
  | (.ok block, s1) =>
    if !block.success then (.ok (none, some block.errMsg), s1)
    else
      match _PKCS5Padding origDataStr block.blockSize with
      | .panic msg => (.panic msg, s1)
      | .ok origData =>
        let encrypted : List Byte := List.replicate origData.length 0
        match callCryptBlocks s1 block.encryptor encrypted origData with
        | (.panic msg, s2) => (.panic msg, s2)
        | (.ok encrypted, s2) => (.ok (some encrypted, none), s2)

/-- The function `AesDecrypt`. -/
def AesDecrypt (s : State) (encryptedStr keyStr : List Byte) : Outcome Ret × State :=
  match getBlock s keyStr with
  | (.panic msg, s1) => (.panic msg, s1)
  | (.ok block, s1) =>
    if !block.success then (.ok (none, some block.errMsg), s1)
    else
      let origData : List Byte := List.replicate encryptedStr.length 0
      match callCryptBlocks s1 block.decryptor origData encryptedStr with
      | (.panic msg, s2) => (.panic msg, s2)
      | (.ok origData, s2) =>
        match _PKCS5UnPadding origData with
        | .panic msg => (.panic msg, s2)
        | .ok origData => (.ok (some origData, none), s2)

/-! ## States a process can reach, and what holds in them -/

/-- The key lengths `aes.NewCipher` accepts. -/
def validKey (key : List Byte) : Prop := key.length = 16 ∨ key.length = 24 ∨ key.length = 32

instance (key : List Byte) : Decidable (validKey key) := by
  unfold validKey; exact inferInstance

/-- The states a process reaches from its start by calls of `AesEncrypt` and `AesDecrypt`,
whatever their arguments and whether they return or panic. -/
inductive Reachable : State → Prop where
  | init : Reachable State.init
  | encrypt (s : State) (origDataStr keyStr : List Byte) :
      Reachable s → Reachable (AesEncrypt s origDataStr keyStr).2
  | decrypt (s : State) (encryptedStr keyStr : List Byte) :
      Reachable s → Reachable (AesDecrypt s encryptedStr keyStr).2

/-- What `getBlock` stores under a key: a successful `blockInfo` of block size 16 for a key of
valid length, whose two addresses hold a CBC decrypter and a CBC encrypter with
16-byte chaining values. -/
def WFInfo (heap : List BlockMode) (key : List Byte) (v : blockInfo) : Prop :=
  validKey key ∧ v.success = true ∧ v.blockSize = 16 ∧
    ∃ d e x y, v.decryptor = some d ∧ v.encryptor = some e ∧
      heap[d]? = some (.cbcDecrypter x) ∧ heap[e]? = some (.cbcEncrypter y) ∧
      x.blockSize = 16 ∧ y.blockSize = 16 ∧ x.iv.length = 16 ∧ y.iv.length = 16

/-- Every entry of `keyMap` is one that `getBlock` stored. -/
def WF (s : State) : Prop :=
  ∀ key v, s.keyMap.lookup key = some v → WFInfo s.heap key v

/-- The entry of `keyMap` for `key` holds an encrypter and a decrypter over the same cipher,
at two different addresses, both with the chaining value `iv`. -/
def Synced (s : State) (key iv : List Byte) : Prop :=
  ∃ v d e c, s.keyMap.lookup key = some v ∧ v.success = true ∧ v.blockSize = 16 ∧
    v.decryptor = some d ∧ v.encryptor = some e ∧ d ≠ e ∧
    s.heap[d]? = some (.cbcDecrypter { b := c, blockSize := 16, iv := iv }) ∧
    s.heap[e]? = some (.cbcEncrypter { b := c, blockSize := 16, iv := iv }) ∧
    iv.length = 16

/-- The chaining values that the cached encrypter and decrypter of `key` hold, in this
order; `none` when `keyMap` has no entry for `key`. -/
def chainingValues (s : State) (key : List Byte) : Option (List Byte × List Byte) :=
  match s.keyMap.lookup key with
  | none => none
  | some v =>
    match v.encryptor, v.decryptor with
    | some e, some d =>
      match s.heap[e]?, s.heap[d]? with
      | some (.cbcEncrypter x), some (.cbcDecrypter y) => some (x.iv, y.iv)
      | _, _ => none
    | _, _ => none

/-- For each plaintext in turn, `AesEncrypt` with `key` immediately followed by `AesDecrypt`
of the ciphertext it returned with `key`. Returns the two results of every pair and the
final state, and stops at an encryption that returns no ciphertext. -/
def encDecPairs (s : State) (key : List Byte) :
    List (List Byte) → List (Outcome Ret × Outcome Ret) × State
  | [] => ([], s)
  | P :: Ps =>
    match AesEncrypt s P key with
    | (.ok (some C, none), s1) =>
      let d := AesDecrypt s1 C key
      let rest := encDecPairs d.2 key Ps
      ((.ok (some C, none), d.1) :: rest.1, rest.2)
    | (_, s1) => ([], s1)

/-- The last block of the last ciphertext that a run of `encDecPairs` returned, and `iv`
when it returned none. -/
def lastChain (iv : List Byte) : List (Outcome Ret × Outcome Ret) → List Byte
  | [] => iv
  | (.ok (some C, _), _) :: rs => lastChain (C.drop (C.length - 16)) rs
  | _ :: rs => lastChain iv rs

/-- The next call with `key` gets from `getBlock` an encrypter and a decrypter that both
hold the chaining value `iv`. -/
def Ready (s : State) (key iv : List Byte) : Prop :=
  ∃ v s1, getBlock s key = (.ok v, s1) ∧ s1.keyMap.lookup key = some v ∧ Synced s1 key iv

/-! ## Goroutines inside `getBlock`

The statements of `getBlock` as atomic steps that goroutines interleave: the read of
`keyMap`, the construction of the cipher context, `lock.Lock()`, the write of `keyMap`,
and `lock.Unlock()`. -/

/-- The statement of `getBlock` a goroutine is about to run, with its local variable
`result` once it is built. -/
inductive Pc where
  | lookup
  | construct
  | acquire (result : blockInfo)
  | store (result : blockInfo)
  | release (result : blockInfo)
  | returned (v : blockInfo)
  | panicked (msg : String)
  deriving DecidableEq

/-- The process state, the mutex `lock`, and where each goroutine stands. -/
structure Config where
  state : State
  lock : Bool
  threads : List Pc
  deriving DecidableEq

/-- Goroutine `i` runs its next statement of `getBlock(key)`. A goroutine waiting for the
held lock, or one that has returned, does not move. -/
def stepThread (key : List Byte) (c : Config) (i : Nat) : Config :=
  match c.threads[i]? with
  | none => c
  | some .lookup =>
    match c.state.keyMap.lookup key with
    | some v => { c with threads := c.threads.set i (.returned v) }
    | none => { c with threads := c.threads.set i .construct }
  | some .construct =>
    match NewCipher key with
    | .error err =>
      { c with threads := c.threads.set i (.returned
          { errMsg := err, success := false, blockSize := 0, decryptor := none,
            encryptor := none }) }
    | .ok block =>
      let blockSize := BlockSize
      if key.length < blockSize then
        { c with threads := c.threads.set i (.panicked "runtime error: slice bounds out of range") }
      else
        match NewCBCDecrypter block (key.take blockSize) with
        | .panic msg => { c with threads := c.threads.set i (.panicked msg) }
        | .ok decryptor =>
          match NewCBCEncrypter block (key.take blockSize) with
          | .panic msg => { c with threads := c.threads.set i (.panicked msg) }
          | .ok encryptor =>
            let result : blockInfo :=
              { errMsg := "", success := true, blockSize := blockSize,
                decryptor := some c.state.heap.length,
                encryptor := some (c.state.heap.length + 1) }
            { c with
              state := { c.state with heap := c.state.heap ++ [decryptor, encryptor] }
              threads := c.threads.set i (.acquire result) }
  | some (.acquire result) =>
    if c.lock then c
    else { c with lock := true, threads := c.threads.set i (.store result) }
  | some (.store result) =>
    { c with
      state := { c.state with keyMap := mapStore c.state.keyMap key result }
      threads := c.threads.set i (.release result) }
  | some (.release result) =>
    { c with lock := false, threads := c.threads.set i (.returned result) }
  | some (.returned _) => c
  | some (.panicked _) => c

/-- The goroutines run `getBlock(key)` in the order the schedule names them. -/
def runSchedule (key : List Byte) (c : Config) (schedule : List Nat) : Config :=
  schedule.foldl (stepThread key) c

/-- The configuration of `n` goroutines that have just called `getBlock` in state `s`. -/
def Config.start (s : State) (n : Nat) : Config :=
  { state := s, lock := false, threads := List.replicate n .lookup }

/-- The values the goroutines that have returned got from `getBlock`. -/
def Config.results (c : Config) : List blockInfo :=
  c.threads.filterMap fun pc => match pc with
    | .returned v => some v
    | _ => none

/-! ## Concrete inputs -/

/-- The bytes `00 01 .. (n-1)`: the keys of the examples of FIPS-197, appendix C. -/
def fipsKey (n : Nat) : List Byte := (List.range n).map fun i => ⟨i % 256, Nat.mod_lt _ (by decide)⟩

/-- The plaintext `00 11 22 .. ff` of the examples of FIPS-197, appendix C. -/
def fipsPlain : List Byte :=
  [0x00, 0x11, 0x22, 0x33, 0x44, 0x55, 0x66, 0x77, 0x88, 0x99, 0xaa, 0xbb, 0xcc, 0xdd, 0xee, 0xff]

/-- The ciphertext of one block under the cipher of `key`; `none` for a key `NewCipher` refuses. -/
def encryptWith (key src : List Byte) : Option (List Byte) :=
  match NewCipher key with
  | .ok c => some (c.Encrypt src)
  | .error _ => none

/-- The bytes of the key `"0123456789abcdef"`. -/
def key16 : List Byte :=
  [0x30, 0x31, 0x32, 0x33, 0x34, 0x35, 0x36, 0x37, 0x38, 0x39, 0x61, 0x62, 0x63, 0x64, 0x65, 0x66]

/-- The bytes of the plaintext `"hello world"`. -/
def helloWorld : List Byte :=
  [0x68, 0x65, 0x6c, 0x6c, 0x6f, 0x20, 0x77, 0x6f, 0x72, 0x6c, 0x64]

/-! ## Lemmas -/

theorem Byte.xor_val (a b : Byte) : (a ^^^ b).val = a.val ^^^ b.val := by
  show (a.val ^^^ b.val) % 256 = _
  exact Nat.mod_eq_of_lt (@Nat.xor_lt_two_pow a.val b.val 8 a.isLt b.isLt)

theorem Byte.xor_comm (a b : Byte) : a ^^^ b = b ^^^ a := by
  apply Fin.ext; simp only [Byte.xor_val, Nat.xor_comm]

theorem Byte.xor_assoc (a b c : Byte) : a ^^^ b ^^^ c = a ^^^ (b ^^^ c) := by
  apply Fin.ext; simp only [Byte.xor_val, Nat.xor_assoc]

theorem Byte.xor_self (a : Byte) : a ^^^ a = 0 := by
  apply Fin.ext; simp only [Byte.xor_val, Nat.xor_self]; rfl

theorem Byte.xor_zero (a : Byte) : a ^^^ 0 = a := by
  apply Fin.ext; simp only [Byte.xor_val]; show a.val ^^^ 0 = a.val; simp

theorem Byte.zero_xor (a : Byte) : 0 ^^^ a = a := by
  rw [Byte.xor_comm, Byte.xor_zero]

theorem Byte.xor_left_comm (a b c : Byte) : a ^^^ (b ^^^ c) = b ^^^ (a ^^^ c) := by
  rw [← Byte.xor_assoc, Byte.xor_comm a b, Byte.xor_assoc]

theorem Byte.xor_cancel_left (a b : Byte) : a ^^^ (a ^^^ b) = b := by
  rw [← Byte.xor_assoc, Byte.xor_self, Byte.zero_xor]

theorem Byte.xor_cancel_right (a b : Byte) : a ^^^ b ^^^ b = a := by
  rw [Byte.xor_assoc, Byte.xor_self, Byte.xor_zero]

theorem ge128_iff (x : Nat) (h : x < 256) : (128 ≤ x) ↔ x.testBit 7 = true := by
  rw [Nat.testBit_to_div_mod]
  simp only [decide_eq_true_eq]
  omega

theorem xtime_testBit (a : Byte) (i : Nat) :
    (xtime a).val.testBit i =
      (decide (i < 8) && ((decide (1 ≤ i) && a.val.testBit (i - 1)) ^^
        (a.val.testBit 7 && (283).testBit i))) := by
  have h2 : 2 * a.val = a.val <<< 1 := by rw [Nat.shiftLeft_eq]; omega
  show (((2 * a.val) ^^^ (if 128 ≤ a.val then 0x11b else 0)) % 2 ^ 8).testBit i = _
  rw [Nat.testBit_mod_two_pow, Nat.testBit_xor, h2, Nat.testBit_shiftLeft]
  by_cases h : 128 ≤ a.val
  · rw [if_pos h, (ge128_iff _ a.isLt).1 h]; simp
  · have : a.val.testBit 7 = false := by
      rcases hb : a.val.testBit 7 with _ | _
      · rfl
      · exact absurd ((ge128_iff _ a.isLt).2 hb) h
    rw [if_neg h, this]; simp

theorem xtime_xor (a b : Byte) : xtime (a ^^^ b) = xtime a ^^^ xtime b := by
  apply Fin.ext
  apply Nat.eq_of_testBit_eq
  intro i
  rw [Byte.xor_val, Nat.testBit_xor, xtime_testBit, xtime_testBit, xtime_testBit, Byte.xor_val,
    Nat.testBit_xor, Nat.testBit_xor]
  cases decide (i < 8) <;> cases decide (1 ≤ i) <;> cases a.val.testBit (i - 1) <;>
    cases b.val.testBit (i - 1) <;> cases a.val.testBit 7 <;> cases b.val.testBit 7 <;>
    cases (283).testBit i <;> rfl

theorem exists_of_length_sixteen (s : List Byte) (h : s.length = 16) :
    ∃ s0 s1 s2 s3 s4 s5 s6 s7 s8 s9 s10 s11 s12 s13 s14 s15,
      s = [s0, s1, s2, s3, s4, s5, s6, s7, s8, s9, s10, s11, s12, s13, s14, s15] :=
  match s, h with
  | [s0, s1, s2, s3, s4, s5, s6, s7, s8, s9, s10, s11, s12, s13, s14, s15], _ =>
    ⟨s0, s1, s2, s3, s4, s5, s6, s7, s8, s9, s10, s11, s12, s13, s14, s15, rfl⟩

theorem invSubByte_subByte : ∀ a : Byte, invSubByte (subByte a) = a := by decide!

theorem invSubBytes_subBytes (s : List Byte) : invSubBytes (subBytes s) = s := by
  induction s with
  | nil => rfl
  | cons a s ih =>
    simp only [invSubBytes, subBytes, List.map_cons, invSubByte_subByte, List.cons.injEq, true_and]
    exact ih

theorem invShiftRows_shiftRows (s : List Byte) (h : s.length = 16) :
    invShiftRows (shiftRows s) = s := by
  obtain ⟨s0, s1, s2, s3, s4, s5, s6, s7, s8, s9, s10, s11, s12, s13, s14, s15, rfl⟩ :=
    exists_of_length_sixteen s h
  rfl

theorem length_shiftRows (s : List Byte) (h : s.length = 16) : (shiftRows s).length = 16 := by
  obtain ⟨s0, s1, s2, s3, s4, s5, s6, s7, s8, s9, s10, s11, s12, s13, s14, s15, rfl⟩ :=
    exists_of_length_sixteen s h
  rfl

theorem length_mixColumns (s : List Byte) (h : s.length = 16) : (mixColumns s).length = 16 := by
  obtain ⟨s0, s1, s2, s3, s4, s5, s6, s7, s8, s9, s10, s11, s12, s13, s14, s15, rfl⟩ :=
    exists_of_length_sixteen s h
  rfl

theorem invMixColumn_mixColumn (a b c d : Byte) :
    invMixColumn (xtime a ^^^ mul3 b ^^^ c ^^^ d) (a ^^^ xtime b ^^^ mul3 c ^^^ d)
      (a ^^^ b ^^^ xtime c ^^^ mul3 d) (mul3 a ^^^ b ^^^ c ^^^ xtime d) = [a, b, c, d] := by
  simp only [invMixColumn, mul3, mul9, mul11, mul13, mul14, xtime_xor]
  generalize xtime a = a1
  generalize xtime a1 = a2
  generalize xtime a2 = a3
  generalize xtime a3 = a4
  generalize xtime b = b1
  generalize xtime b1 = b2
  generalize xtime b2 = b3
  generalize xtime b3 = b4
  generalize xtime c = c1
  generalize xtime c1 = c2
  generalize xtime c2 = c3
  generalize xtime c3 = c4
  generalize xtime d = d1
  generalize xtime d1 = d2
  generalize xtime d2 = d3
  generalize xtime d3 = d4
  simp only [Byte.xor_assoc]
  simp only [Byte.xor_comm, Byte.xor_left_comm, Byte.xor_cancel_left]
  simp only [Byte.xor_self, Byte.xor_zero]

theorem invMixColumns_mixColumns (s : List Byte) (h : s.length = 16) :
    invMixColumns (mixColumns s) = s := by
  obtain ⟨s0, s1, s2, s3, s4, s5, s6, s7, s8, s9, s10, s11, s12, s13, s14, s15, rfl⟩ :=
    exists_of_length_sixteen s h
  simp only [mixColumns, mixColumn, List.cons_append, List.nil_append, invMixColumns,
    invMixColumn_mixColumn]

theorem length_xorBytes (x y : List Byte) : (xorBytes x y).length = min x.length y.length := by
  simp [xorBytes]

theorem xorBytes_cancel (x y : List Byte) (h : x.length ≤ y.length) :
    xorBytes (xorBytes x y) y = x := by
  induction x generalizing y with
  | nil => simp [xorBytes]
  | cons a x ih =>
    cases y with
    | nil => simp at h
    | cons b y =>
      simp only [xorBytes, List.zipWith_cons_cons, List.cons.injEq, Byte.xor_cancel_right, true_and]
      exact ih y (by simpa using h)

theorem length_roundKey (w : List Byte) (r : Nat) : (roundKey w r).length = 16 := by
  simp [roundKey]

theorem length_aesRound (w s : List Byte) (r : Nat) (h : s.length = 16) :
    (aesRound w s r).length = 16 := by
  simp [aesRound, length_xorBytes, length_roundKey, length_mixColumns, length_shiftRows, subBytes, h]


theorem length_subBytes (s : List Byte) : (subBytes s).length = s.length := by
  simp [subBytes]

theorem length_aesRoundShifted (w s : List Byte) (r : Nat) (h : s.length = 16) :
    (aesRoundShifted w s r).length = 16 := by
  unfold aesRoundShifted
  apply length_shiftRows
  rw [length_subBytes, length_xorBytes, length_roundKey, length_mixColumns s h]
  rfl

theorem foldl_aesRound_shifted (w : List Byte) (rs : List Nat) (s : List Byte) :
    shiftRows (subBytes (rs.foldl (aesRound w) s)) =
      rs.foldl (aesRoundShifted w) (shiftRows (subBytes s)) := by
  induction rs generalizing s with
  | nil => rfl
  | cons r rs ih =>
    simp only [List.foldl_cons]
    rw [ih]
    rfl

theorem aesInvRound_aesRoundShifted (w s : List Byte) (r : Nat) (h : s.length = 16) :
    aesInvRound w (aesRoundShifted w s r) r = s := by
  have h1 : (xorBytes (mixColumns s) (roundKey w r)).length = 16 := by
    rw [length_xorBytes, length_roundKey, length_mixColumns s h]; rfl
  unfold aesInvRound aesRoundShifted
  rw [invShiftRows_shiftRows _ (by rw [length_subBytes, h1]), invSubBytes_subBytes,
    xorBytes_cancel _ _ (by rw [length_roundKey, length_mixColumns s h]),
    invMixColumns_mixColumns s h]

theorem length_foldl_aesRoundShifted (w : List Byte) (rs : List Nat) (s : List Byte)
    (h : s.length = 16) : (rs.foldl (aesRoundShifted w) s).length = 16 := by
  induction rs generalizing s with
  | nil => exact h
  | cons r rs ih => exact ih _ (length_aesRoundShifted w s r h)

theorem foldl_aesInvRound_cancel (w : List Byte) (rs : List Nat) (s : List Byte)
    (h : s.length = 16) :
    rs.reverse.foldl (aesInvRound w) (rs.foldl (aesRoundShifted w) s) = s := by
  induction rs generalizing s with
  | nil => rfl
  | cons r rs ih =>
    rw [List.reverse_cons, List.foldl_append, List.foldl_cons, List.foldl_nil, List.foldl_cons,
      ih _ (length_aesRoundShifted w s r h)]
    exact aesInvRound_aesRoundShifted w s r h

/-- InvCipher undoes Cipher on every 16-byte block, for every key schedule. -/
theorem aesCipher.Decrypt_Encrypt (c : aesCipher) (src : List Byte) (h : src.length = 16) :
    c.Decrypt (c.Encrypt src) = src := by
  have h0 : (xorBytes src (roundKey c.enc 0)).length = 16 := by
    rw [length_xorBytes, length_roundKey, h]; rfl
  have h1 : (shiftRows (subBytes (xorBytes src (roundKey c.enc 0)))).length = 16 :=
    length_shiftRows _ (by rw [length_subBytes, h0])
  unfold aesCipher.Decrypt aesCipher.Encrypt
  simp only []
  rw [foldl_aesRound_shifted,
    xorBytes_cancel _ _ (by rw [length_roundKey, length_foldl_aesRoundShifted _ _ _ h1]),
    foldl_aesInvRound_cancel _ _ _ h1,
    invShiftRows_shiftRows _ (by rw [length_subBytes, h0]), invSubBytes_subBytes,
    xorBytes_cancel _ _ (by rw [length_roundKey, h])]

/-- The example vector of FIPS-197, appendix C.1 (AES-128). -/
theorem encrypt_fips197_aes128 :
    encryptWith (fipsKey 16) fipsPlain =
      some [0x69, 0xc4, 0xe0, 0xd8, 0x6a, 0x7b, 0x04, 0x30, 0xd8, 0xcd, 0xb7, 0x80, 0x70, 0xb4,
        0xc5, 0x5a] := by
  decide!

/-- The example vector of FIPS-197, appendix C.2 (AES-192). -/
theorem encrypt_fips197_aes192 :
    encryptWith (fipsKey 24) fipsPlain =
      some [0xdd, 0xa9, 0x7c, 0xa4, 0x86, 0x4c, 0xdf, 0xe0, 0x6e, 0xaf, 0x70, 0xa0, 0xec, 0x0d,
        0x71, 0x91] := by
  decide!

/-- The example vector of FIPS-197, appendix C.3 (AES-256). -/
theorem encrypt_fips197_aes256 :
    encryptWith (fipsKey 32) fipsPlain =
      some [0x8e, 0xa2, 0xb7, 0xca, 0x51, 0x67, 0x45, 0xbf, 0xea, 0xfc, 0x49, 0x90, 0x4b, 0x49,
        0x60, 0x89] := by
  decide!

theorem aesCipher.length_Encrypt (c : aesCipher) (src : List Byte) (h : src.length = 16) :
    (c.Encrypt src).length = 16 := by
  have h0 : (xorBytes src (roundKey c.enc 0)).length = 16 := by
    rw [length_xorBytes, length_roundKey, h]; rfl
  have h1 : (shiftRows (subBytes (xorBytes src (roundKey c.enc 0)))).length = 16 :=
    length_shiftRows _ (by rw [length_subBytes, h0])
  unfold aesCipher.Encrypt
  simp only []
  rw [foldl_aesRound_shifted, length_xorBytes, length_roundKey,
    length_foldl_aesRoundShifted _ _ _ h1]
  rfl

theorem _PKCS5Padding_pos (P : List Byte) (n : Int) (hn : 0 < n) :
    _PKCS5Padding P n =
      .ok (P ++ List.replicate (n - (P.length : Int) % n).toNat (toByte (n - (P.length : Int) % n))) := by
  have h0 : n ≠ 0 := by omega
  have hmod : Int.tmod (P.length : Int) n = (P.length : Int) % n :=
    Int.tmod_eq_emod (by omega) (by omega)
  have hlt : (P.length : Int) % n < n := Int.emod_lt_of_pos _ hn
  unfold _PKCS5Padding
  rw [if_neg h0]
  simp only [hmod]
  rw [if_neg (by omega)]

theorem padding_spec (P : List Byte) (n : Int) (hn : 0 < n) :
    ∃ r, _PKCS5Padding P n = .ok r ∧ P <+: r ∧
      (r.length : Int) = P.length + (n - (P.length : Int) % n) ∧
      (r.length : Int) % n = 0 ∧
      P.length + 1 ≤ r.length ∧ (r.length : Int) ≤ P.length + n ∧
      ((P.length : Int) % n = 0 → (r.length : Int) = P.length + n) := by
  have hlt : (P.length : Int) % n < n := Int.emod_lt_of_pos _ hn
  have hge : 0 ≤ (P.length : Int) % n := Int.emod_nonneg _ (by omega)
  refine ⟨_, _PKCS5Padding_pos P n hn, List.prefix_append _ _, ?_⟩
  have hlen : (((P ++ List.replicate (n - (P.length : Int) % n).toNat
      (toByte (n - (P.length : Int) % n))).length : Nat) : Int) =
      P.length + (n - (P.length : Int) % n) := by
    rw [List.length_append, List.length_replicate]
    omega
  refine ⟨hlen, ?_, ?_, ?_, ?_⟩
  · rw [hlen]
    have : (P.length : Int) + (n - (P.length : Int) % n) =
        n * ((P.length : Int) / n + 1) := by
      have := Int.emod_add_ediv (P.length : Int) n
      rw [mul_add, mul_one]
      omega
    rw [this]
    exact Int.mul_emod_right _ _
  · omega
  · omega
  · intro h
    rw [hlen, h]
    omega

theorem toByte_val (n : Int) (h0 : 0 ≤ n) (h1 : n ≤ 255) : ((toByte n).val : Int) = n := by
  simp only [toByte]
  omega

theorem unpadding_padding (P : List Byte) (n : Int) (h1 : 1 ≤ n) (h2 : n ≤ 255) :
    ∃ r, _PKCS5Padding P n = .ok r ∧ _PKCS5UnPadding r = .ok P := by
  have hn : 0 < n := by omega
  have hlt : (P.length : Int) % n < n := Int.emod_lt_of_pos _ hn
  have hge : 0 ≤ (P.length : Int) % n := Int.emod_nonneg _ (by omega)
  refine ⟨_, _PKCS5Padding_pos P n hn, ?_⟩
  generalize hk : n - (P.length : Int) % n = k
  have hk1 : 1 ≤ k := by omega
  have hk2 : k ≤ 255 := by omega
  have hv := toByte_val k (by omega) hk2
  have hne : k.toNat ≠ 0 := by omega
  unfold _PKCS5UnPadding
  simp only [List.getLast?_append, List.getLast?_replicate, if_neg hne, Option.or_some,
    List.length_append, List.length_replicate]
  have hval : (toByte k).val = k.toNat := by omega
  rw [hval, if_neg (by omega)]
  congr 1
  rw [show P.length + k.toNat - k.toNat = P.length by omega]
  exact List.take_left' rfl

theorem length_encryptBlocks (b : aesCipher) (n : Nat) (iv src : List Byte)
    (hiv : iv.length = 16) (hsrc : src.length = 16 * n) :
    (encryptBlocks b 16 n iv src).1.length = 16 * n ∧
      (encryptBlocks b 16 n iv src).2.length = 16 := by
  induction n generalizing iv src with
  | zero => exact ⟨rfl, hiv⟩
  | succ n ih =>
    have hblk : (b.Encrypt (xorBytes (src.take 16) iv)).length = 16 := by
      apply aesCipher.length_Encrypt
      rw [length_xorBytes, List.length_take, hiv, hsrc]; omega
    obtain ⟨h1, h2⟩ := ih (b.Encrypt (xorBytes (src.take 16) iv)) (src.drop 16) hblk
      (by rw [List.length_drop, hsrc]; omega)
    refine ⟨?_, h2⟩
    simp only [encryptBlocks, List.length_append, hblk, h1]
    omega

theorem encryptBlocks_snd (b : aesCipher) (n : Nat) (iv src : List Byte)
    (hiv : iv.length = 16) (hsrc : src.length = 16 * (n + 1)) :
    (encryptBlocks b 16 (n + 1) iv src).2 = (encryptBlocks b 16 (n + 1) iv src).1.drop (16 * n) := by
  induction n generalizing iv src with
  | zero => simp [encryptBlocks]
  | succ n ih =>
    have hblk : (b.Encrypt (xorBytes (src.take 16) iv)).length = 16 := by
      apply aesCipher.length_Encrypt
      rw [length_xorBytes, List.length_take, hiv, hsrc]; omega
    have := ih (b.Encrypt (xorBytes (src.take 16) iv)) (src.drop 16) hblk
      (by rw [List.length_drop, hsrc]; omega)
    rw [encryptBlocks]
    simp only []
    rw [this, show 16 * (n + 1) = 16 + 16 * n by omega, ← List.drop_drop,
      List.drop_left' hblk]

theorem decryptBlocks_encryptBlocks (b : aesCipher) (n : Nat) (iv src : List Byte)
    (hiv : iv.length = 16) (hsrc : src.length = 16 * n) :
    decryptBlocks b 16 n iv (encryptBlocks b 16 n iv src).1 =
      (src, (encryptBlocks b 16 n iv src).2) := by
  induction n generalizing iv src with
  | zero =>
    have : src = [] := List.eq_nil_of_length_eq_zero (by omega)
    subst this; rfl
  | succ n ih =>
    have hx : (xorBytes (src.take 16) iv).length = 16 := by
      rw [length_xorBytes, List.length_take, hiv, hsrc]; omega
    have hblk : (b.Encrypt (xorBytes (src.take 16) iv)).length = 16 :=
      aesCipher.length_Encrypt _ _ hx
    have := ih (b.Encrypt (xorBytes (src.take 16) iv)) (src.drop 16) hblk
      (by rw [List.length_drop, hsrc]; omega)
    simp only [encryptBlocks, decryptBlocks, List.take_left' hblk, List.drop_left' hblk, this,
      aesCipher.Decrypt_Encrypt _ _ hx]
    rw [xorBytes_cancel _ _ (by rw [List.length_take, hiv]; omega), List.take_append_drop]

theorem decryptBlocks_snd (b : aesCipher) (n : Nat) (iv src : List Byte)
    (hsrc : src.length = 16 * (n + 1)) :
    (decryptBlocks b 16 (n + 1) iv src).2 = src.drop (16 * n) := by
  induction n generalizing iv src with
  | zero =>
    simp only [decryptBlocks, Nat.mul_zero, List.drop_zero]
    exact List.take_of_length_le (by omega)
  | succ n ih =>
    have := ih (src.take 16) (src.drop 16) (by rw [List.length_drop, hsrc]; omega)
    rw [decryptBlocks]
    simp only []
    rw [this, List.drop_drop]
    congr 1
    omega

theorem length_decryptBlocks_snd (b : aesCipher) (n : Nat) (iv src : List Byte)
    (hiv : iv.length = 16) (hsrc : src.length = 16 * n) :
    (decryptBlocks b 16 n iv src).2.length = 16 := by
  cases n with
  | zero => exact hiv
  | succ n => rw [decryptBlocks_snd b n iv src hsrc, List.length_drop, hsrc]; omega

theorem copyBytes_eq (dst src : List Byte) (h : dst.length = src.length) : copyBytes dst src = src := by
  unfold copyBytes
  rw [h, List.take_length, ← h, List.drop_length, List.append_nil]

theorem NewCipher_valid (key : List Byte) (h : validKey key) :
    NewCipher key = .ok { rounds := key.length / 4 + 6, enc := expandKey key } := by
  unfold validKey at h
  unfold NewCipher
  rw [if_pos h]

theorem NewCipher_invalid (key : List Byte) (h : ¬ validKey key) :
    NewCipher key = .error ("crypto/aes: invalid key size " ++ toString key.length) := by
  unfold validKey at h
  unfold NewCipher
  rw [if_neg h]

theorem lookup_mapStore_self (m : List (List Byte × blockInfo)) (k : List Byte) (v : blockInfo) :
    (mapStore m k v).lookup k = some v := by
  simp [mapStore, List.lookup]

theorem lookup_filter_ne (m : List (List Byte × blockInfo)) (k k' : List Byte) (h : k' ≠ k) :
    (m.filter fun e => e.1 != k).lookup k' = m.lookup k' := by
  induction m with
  | nil => rfl
  | cons e m ih =>
    obtain ⟨a, b⟩ := e
    by_cases hak : a = k
    · subst hak
      have : (k' == a) = false := by simpa using h
      simp [List.filter, List.lookup, this, ih]
    · have h1 : (a != k) = true := by simpa using hak
      simp only [List.filter, h1, List.lookup, ih]

theorem lookup_mapStore_ne (m : List (List Byte × blockInfo)) (k k' : List Byte) (v : blockInfo)
    (h : k' ≠ k) : (mapStore m k v).lookup k' = m.lookup k' := by
  have : (k' == k) = false := by simpa using h
  simp only [mapStore, List.lookup, this]
  exact lookup_filter_ne m k k' h

theorem getBlock_hit (s : State) (key : List Byte) (v : blockInfo)
    (h : s.keyMap.lookup key = some v) : getBlock s key = (.ok v, s) := by
  unfold getBlock
  rw [h]

theorem getBlock_miss_invalid (s : State) (key : List Byte)
    (h : s.keyMap.lookup key = none) (hk : ¬ validKey key) :
    getBlock s key =
      (.ok { errMsg := "crypto/aes: invalid key size " ++ toString key.length, success := false,
             blockSize := 0, decryptor := none, encryptor := none }, s) := by
  unfold getBlock
  rw [h, NewCipher_invalid key hk]

/-- The `blockInfo` that `getBlock` builds on a miss when the heap holds `n` block modes. -/
theorem getBlock_miss_valid (s : State) (key : List Byte)
    (h : s.keyMap.lookup key = none) (hk : validKey key) :
    getBlock s key =
      (.ok { errMsg := "", success := true, blockSize := 16,
             decryptor := some s.heap.length, encryptor := some (s.heap.length + 1) },
       { keyMap := mapStore s.keyMap key
           { errMsg := "", success := true, blockSize := 16,
             decryptor := some s.heap.length, encryptor := some (s.heap.length + 1) },
         heap := s.heap ++
           [.cbcDecrypter { b := { rounds := key.length / 4 + 6, enc := expandKey key },
                            blockSize := 16, iv := key.take 16 },
            .cbcEncrypter { b := { rounds := key.length / 4 + 6, enc := expandKey key },
                            blockSize := 16, iv := key.take 16 }] }) := by
  have hlen : ¬ key.length < 16 := by unfold validKey at hk; omega
  have hiv : (key.take 16).length = 16 := by
    rw [List.length_take]; unfold validKey at hk; omega
  unfold getBlock
  rw [h, NewCipher_valid key hk]
  simp only [BlockSize, NewCBCDecrypter, NewCBCEncrypter, hiv, ne_eq, not_true_eq_false,
    if_false, hlen]
  rfl

theorem padding16 (P : List Byte) :
    ∃ D, _PKCS5Padding P 16 = .ok D ∧ D.length = 16 * (P.length / 16 + 1) ∧
      _PKCS5UnPadding D = .ok P := by
  obtain ⟨r, h1, h2⟩ := unpadding_padding P 16 (by decide) (by decide)
  obtain ⟨r', h1', -, h3, -⟩ := padding_spec P 16 (by decide)
  rw [h1] at h1'
  cases h1'
  exact ⟨r, h1, by omega, h2⟩

theorem CryptBlocks_encrypter (y : cbc) (D : List Byte) (n : Nat) (hy : y.blockSize = 16)
    (hiv : y.iv.length = 16) (hD : D.length = 16 * n) :
    (BlockMode.cbcEncrypter y).CryptBlocks (List.replicate D.length 0) D =
      .ok ((encryptBlocks y.b 16 n y.iv D).1,
        .cbcEncrypter { y with iv := (encryptBlocks y.b 16 n y.iv D).2 }) := by
  obtain ⟨-, h2⟩ := length_encryptBlocks y.b n y.iv D hiv hD
  have hn : D.length / 16 = n := by omega
  unfold BlockMode.CryptBlocks
  simp only [hy, List.length_replicate, lt_irrefl, if_false, hn]
  rw [if_neg (by omega), if_neg (by omega)]
  rw [copyBytes_eq _ _ (by rw [hiv, h2])]
  simp

theorem CryptBlocks_decrypter (x : cbc) (C : List Byte) (n : Nat) (hx : x.blockSize = 16)
    (hiv : x.iv.length = 16) (hC : C.length = 16 * n) :
    (BlockMode.cbcDecrypter x).CryptBlocks (List.replicate C.length 0) C =
      .ok ((decryptBlocks x.b 16 n x.iv C).1,
        .cbcDecrypter { x with iv := (decryptBlocks x.b 16 n x.iv C).2 }) := by
  have h2 := length_decryptBlocks_snd x.b n x.iv C hiv hC
  have hn : C.length / 16 = n := by omega
  unfold BlockMode.CryptBlocks
  simp only [hx, List.length_replicate, lt_irrefl, if_false, hn]
  rw [if_neg (by omega), if_neg (by omega)]
  rw [copyBytes_eq _ _ (by rw [hiv, h2])]
  simp

theorem CryptBlocks_decrypter_ragged (x : cbc) (C dst : List Byte) (hx : x.blockSize = 16)
    (hC : C.length % 16 ≠ 0) :
    (BlockMode.cbcDecrypter x).CryptBlocks dst C = .panic "crypto/cipher: input not full blocks" := by
  unfold BlockMode.CryptBlocks
  simp only [hx]
  rw [if_neg (by omega), if_pos hC]

theorem AesEncrypt_hit (s : State) (P K : List Byte) (v : blockInfo) (e : Nat) (y : cbc)
    (hl : s.keyMap.lookup K = some v) (hs : v.success = true) (hb : v.blockSize = 16)
    (he : v.encryptor = some e) (hh : s.heap[e]? = some (.cbcEncrypter y))
    (hy : y.blockSize = 16) (hiv : y.iv.length = 16) (D : List Byte)
    (hD : _PKCS5Padding P 16 = .ok D) (n : Nat) (hn : D.length = 16 * n) :
    AesEncrypt s P K =
      (.ok (some (encryptBlocks y.b 16 n y.iv D).1, none),
        { s with heap := s.heap.set e (.cbcEncrypter
            { y with iv := (encryptBlocks y.b 16 n y.iv D).2 }) }) := by
  unfold AesEncrypt
  rw [getBlock_hit s K v hl]
  simp only [hs, Bool.not_true, Bool.false_eq_true, if_false, hb, hD, callCryptBlocks, he, hh,
    CryptBlocks_encrypter y D n hy hiv hn]

theorem AesDecrypt_hit (s : State) (C K : List Byte) (v : blockInfo) (d : Nat) (x : cbc)
    (hl : s.keyMap.lookup K = some v) (hs : v.success = true)
    (hd : v.decryptor = some d) (hh : s.heap[d]? = some (.cbcDecrypter x))
    (hx : x.blockSize = 16) (hiv : x.iv.length = 16) (n : Nat) (hn : C.length = 16 * n) :
    (∀ r, _PKCS5UnPadding (decryptBlocks x.b 16 n x.iv C).1 = .ok r →
        AesDecrypt s C K =
          (.ok (some r, none), { s with heap := s.heap.set d (.cbcDecrypter
            { x with iv := (decryptBlocks x.b 16 n x.iv C).2 }) })) ∧
      (∀ msg, _PKCS5UnPadding (decryptBlocks x.b 16 n x.iv C).1 = .panic msg →
        AesDecrypt s C K =
          (.panic msg, { s with heap := s.heap.set d (.cbcDecrypter
            { x with iv := (decryptBlocks x.b 16 n x.iv C).2 }) })) := by
  unfold AesDecrypt
  rw [getBlock_hit s K v hl]
  simp only [hs, Bool.not_true, Bool.false_eq_true, if_false, callCryptBlocks, hd, hh,
    CryptBlocks_decrypter x C n hx hiv hn]
  constructor
  · intro r hr
    rw [hr]
  · intro msg hr
    rw [hr]

theorem AesDecrypt_hit_ragged (s : State) (C K : List Byte) (v : blockInfo) (d : Nat) (x : cbc)
    (hl : s.keyMap.lookup K = some v) (hs : v.success = true)
    (hd : v.decryptor = some d) (hh : s.heap[d]? = some (.cbcDecrypter x))
    (hx : x.blockSize = 16) (hC : C.length % 16 ≠ 0) :
    AesDecrypt s C K = (.panic "crypto/cipher: input not full blocks", s) := by
  unfold AesDecrypt
  rw [getBlock_hit s K v hl]
  simp only [hs, Bool.not_true, Bool.false_eq_true, if_false, callCryptBlocks, hd, hh,
    CryptBlocks_decrypter_ragged x C _ hx hC]

theorem AesEncrypt_of_getBlock (s s1 : State) (P K : List Byte) (v : blockInfo)
    (h : getBlock s K = (.ok v, s1)) (hl : s1.keyMap.lookup K = some v) :
    AesEncrypt s P K = AesEncrypt s1 P K := by
  unfold AesEncrypt
  rw [h, getBlock_hit s1 K v hl]

theorem AesDecrypt_of_getBlock (s s1 : State) (C K : List Byte) (v : blockInfo)
    (h : getBlock s K = (.ok v, s1)) (hl : s1.keyMap.lookup K = some v) :
    AesDecrypt s C K = AesDecrypt s1 C K := by
  unfold AesDecrypt
  rw [h, getBlock_hit s1 K v hl]

theorem AesEncrypt_invalid (s : State) (P K : List Byte) (hl : s.keyMap.lookup K = none)
    (hk : ¬ validKey K) :
    AesEncrypt s P K =
      (.ok (none, some ("crypto/aes: invalid key size " ++ toString K.length)), s) := by
  unfold AesEncrypt
  rw [getBlock_miss_invalid s K hl hk]
  rfl

theorem AesDecrypt_invalid (s : State) (C K : List Byte) (hl : s.keyMap.lookup K = none)
    (hk : ¬ validKey K) :
    AesDecrypt s C K =
      (.ok (none, some ("crypto/aes: invalid key size " ++ toString K.length)), s) := by
  unfold AesDecrypt
  rw [getBlock_miss_invalid s K hl hk]
  rfl

theorem WF_init : WF State.init := by
  intro key v h
  simp [State.init, List.lookup] at h

theorem WFInfo_append (heap l : List BlockMode) (key : List Byte) (v : blockInfo)
    (h : WFInfo heap key v) : WFInfo (heap ++ l) key v := by
  obtain ⟨hk, hs, hb, d, e, x, y, hd, he, hhd, hhe, rest⟩ := h
  refine ⟨hk, hs, hb, d, e, x, y, hd, he, ?_, ?_, rest⟩
  · have hlt : d < heap.length := by
      by_contra hc
      rw [List.getElem?_eq_none (by omega)] at hhd
      cases hhd
    rw [List.getElem?_append_left hlt, hhd]
  · have hlt : e < heap.length := by
      by_contra hc
      rw [List.getElem?_eq_none (by omega)] at hhe
      cases hhe
    rw [List.getElem?_append_left hlt, hhe]

theorem getElem?_append_pair_fst (l : List BlockMode) (a b : BlockMode) :
    (l ++ [a, b])[l.length]? = some a := by
  rw [List.getElem?_append_right (Nat.le_refl _), Nat.sub_self]
  rfl

theorem getElem?_append_pair_snd (l : List BlockMode) (a b : BlockMode) :
    (l ++ [a, b])[l.length + 1]? = some b := by
  rw [List.getElem?_append_right (by omega), show l.length + 1 - l.length = 1 by omega]
  rfl

theorem WF_lookup_none_of_invalid (s : State) (K : List Byte) (h : WF s) (hk : ¬ validKey K) :
    s.keyMap.lookup K = none := by
  cases hl : s.keyMap.lookup K with
  | none => rfl
  | some v => exact absurd (h K v hl).1 hk

/-- On a key of valid length `getBlock` returns the entry that `keyMap` then holds for the
key; a state that is well formed stays so. -/
theorem getBlock_valid (s : State) (K : List Byte) (h : WF s) (hk : validKey K) :
    ∃ v s1, getBlock s K = (.ok v, s1) ∧ s1.keyMap.lookup K = some v ∧ WF s1 ∧
      (∀ K', K' ≠ K → s1.keyMap.lookup K' = s.keyMap.lookup K') := by
  cases hl : s.keyMap.lookup K with
  | some v => exact ⟨v, s, getBlock_hit s K v hl, hl, h, fun _ _ => rfl⟩
  | none =>
    refine ⟨_, _, getBlock_miss_valid s K hl hk, lookup_mapStore_self _ _ _, ?_,
      fun K' hne => lookup_mapStore_ne _ _ _ _ hne⟩
    intro key v hv
    by_cases hkey : key = K
    · subst hkey
      rw [lookup_mapStore_self] at hv
      cases hv
      have hiv : (key.take 16).length = 16 := by
        rw [List.length_take]; unfold validKey at hk; omega
      refine ⟨hk, rfl, rfl, s.heap.length, s.heap.length + 1,
        { b := { rounds := key.length / 4 + 6, enc := expandKey key }, blockSize := 16,
          iv := key.take 16 },
        { b := { rounds := key.length / 4 + 6, enc := expandKey key }, blockSize := 16,
          iv := key.take 16 }, rfl, rfl, ?_, ?_, rfl, rfl, hiv, hiv⟩
      · exact getElem?_append_pair_fst _ _ _
      · exact getElem?_append_pair_snd _ _ _
    · rw [lookup_mapStore_ne _ _ _ _ hkey] at hv
      exact WFInfo_append _ _ _ _ (h key v hv)

theorem WF_set_encrypter (s : State) (e : Nat) (y y' : cbc) (h : WF s)
    (hh : s.heap[e]? = some (.cbcEncrypter y)) (hb : y'.blockSize = 16)
    (hiv : y'.iv.length = 16) :
    WF { s with heap := s.heap.set e (.cbcEncrypter y') } := by
  have hlt : e < s.heap.length := by
    by_contra hc
    rw [List.getElem?_eq_none (by omega)] at hh
    cases hh
  intro key v hv
  obtain ⟨hk, hs, hvb, d0, e0, x0, y0, hd, he, hhd, hhe, hxb, hyb, hxi, hyi⟩ := h key v hv
  have hde : e ≠ d0 := by
    intro heq
    rw [heq, hhd] at hh
    cases hh
  by_cases hee : e = e0
  · refine ⟨hk, hs, hvb, d0, e0, x0, y', hd, he, ?_, ?_, hxb, hb, hxi, hiv⟩
    · simp only [List.getElem?_set, if_neg hde, hhd]
    · simp only [List.getElem?_set, hee, if_true]
      rw [if_pos (by omega)]
  · refine ⟨hk, hs, hvb, d0, e0, x0, y0, hd, he, ?_, ?_, hxb, hyb, hxi, hyi⟩
    · simp only [List.getElem?_set, if_neg hde, hhd]
    · simp only [List.getElem?_set, if_neg hee, hhe]

theorem WF_set_decrypter (s : State) (d : Nat) (x x' : cbc) (h : WF s)
    (hh : s.heap[d]? = some (.cbcDecrypter x)) (hb : x'.blockSize = 16)
    (hiv : x'.iv.length = 16) :
    WF { s with heap := s.heap.set d (.cbcDecrypter x') } := by
  have hlt : d < s.heap.length := by
    by_contra hc
    rw [List.getElem?_eq_none (by omega)] at hh
    cases hh
  intro key v hv
  obtain ⟨hk, hs, hvb, d0, e0, x0, y0, hd, he, hhd, hhe, hxb, hyb, hxi, hyi⟩ := h key v hv
  have hde : d ≠ e0 := by
    intro heq
    rw [heq, hhe] at hh
    cases hh
  by_cases hdd : d = d0
  · refine ⟨hk, hs, hvb, d0, e0, x', y0, hd, he, ?_, ?_, hb, hyb, hiv, hyi⟩
    · simp only [List.getElem?_set, hdd, if_true]
      rw [if_pos (by omega)]
    · simp only [List.getElem?_set, if_neg hde, hhe]
  · refine ⟨hk, hs, hvb, d0, e0, x0, y0, hd, he, ?_, ?_, hxb, hyb, hxi, hyi⟩
    · simp only [List.getElem?_set, if_neg hdd, hhd]
    · simp only [List.getElem?_set, if_neg hde, hhe]

/-- With a key of valid length `AesEncrypt` returns a ciphertext, in every well-formed
state. -/
theorem AesEncrypt_valid (s : State) (P K : List Byte) (h : WF s) (hk : validKey K) :
    ∃ C s', AesEncrypt s P K = (.ok (some C, none), s') ∧
      C.length = 16 * (P.length / 16 + 1) ∧ WF s' := by
  obtain ⟨v, s1, hg, hl, hwf, -⟩ := getBlock_valid s K h hk
  obtain ⟨-, hs, hvb, d, e, x, y, hd, he, hhd, hhe, hxb, hyb, hxi, hyi⟩ := hwf K v hl
  obtain ⟨D, hD, hDl, -⟩ := padding16 P
  obtain ⟨h1, h2⟩ := length_encryptBlocks y.b _ y.iv D hyi hDl
  refine ⟨_, _, ?_, h1, WF_set_encrypter s1 e y
    { y with iv := (encryptBlocks y.b 16 (P.length / 16 + 1) y.iv D).2 } hwf hhe hyb h2⟩
  rw [AesEncrypt_of_getBlock s s1 P K v hg hl]
  exact AesEncrypt_hit s1 P K v e y hl hs hvb he hhe hyb hyi D hD _ hDl

theorem WF_AesEncrypt (s : State) (P K : List Byte) (h : WF s) : WF (AesEncrypt s P K).2 := by
  by_cases hk : validKey K
  · obtain ⟨C, s', he, -, hwf⟩ := AesEncrypt_valid s P K h hk
    rw [he]; exact hwf
  · rw [AesEncrypt_invalid s P K (WF_lookup_none_of_invalid s K h hk) hk]
    exact h

theorem WF_AesDecrypt (s : State) (C K : List Byte) (h : WF s) : WF (AesDecrypt s C K).2 := by
  by_cases hk : validKey K
  · obtain ⟨v, s1, hg, hl, hwf, -⟩ := getBlock_valid s K h hk
    obtain ⟨-, hs, hvb, d, e, x, y, hd, he, hhd, hhe, hxb, hyb, hxi, hyi⟩ := hwf K v hl
    rw [AesDecrypt_of_getBlock s s1 C K v hg hl]
    by_cases hC : C.length % 16 = 0
    · have hn : C.length = 16 * (C.length / 16) := by omega
      obtain ⟨hok, hpanic⟩ := AesDecrypt_hit s1 C K v d x hl hs hd hhd hxb hxi _ hn
      have hwf' := WF_set_decrypter s1 d x
        { x with iv := (decryptBlocks x.b 16 (C.length / 16) x.iv C).2 } hwf hhd hxb
        (length_decryptBlocks_snd x.b _ x.iv C hxi hn)
      cases hu : _PKCS5UnPadding (decryptBlocks x.b 16 (C.length / 16) x.iv C).1 with
      | ok r => rw [hok r hu]; exact hwf'
      | panic msg => rw [hpanic msg hu]; exact hwf'
    · rw [AesDecrypt_hit_ragged s1 C K v d x hl hs hd hhd hxb hC]
      exact hwf
  · rw [AesDecrypt_invalid s C K (WF_lookup_none_of_invalid s K h hk) hk]
    exact h

theorem Reachable.wf (s : State) (h : Reachable s) : WF s := by
  induction h with
  | init => exact WF_init
  | encrypt s P K _ ih => exact WF_AesEncrypt s P K ih
  | decrypt s C K _ ih => exact WF_AesDecrypt s C K ih

theorem chainingValues_of_Synced (s : State) (K iv : List Byte) (h : Synced s K iv) :
    Cryptos.chainingValues s K = some (iv, iv) := by
  obtain ⟨v, d, e, c, hl, -, -, hd, he, -, hhd, hhe, -⟩ := h
  unfold Cryptos.chainingValues
  simp only [hl, hd, he, hhd, hhe]

theorem Ready_of_Synced (s : State) (K iv : List Byte) (h : Synced s K iv) : Ready s K iv := by
  obtain ⟨v, d, e, c, hl, rest⟩ := h
  exact ⟨v, s, getBlock_hit s K v hl, hl, v, d, e, c, hl, rest⟩

theorem Ready_init (K : List Byte) (hk : validKey K) : Ready State.init K (K.take 16) := by
  have hiv : (K.take 16).length = 16 := by
    rw [List.length_take]; unfold validKey at hk; omega
  refine ⟨_, _, getBlock_miss_valid State.init K rfl hk, lookup_mapStore_self _ _ _, ?_⟩
  exact ⟨_, 0, 1, { rounds := K.length / 4 + 6, enc := expandKey K }, lookup_mapStore_self _ _ _,
    rfl, rfl, rfl, rfl, by decide, rfl, rfl, hiv⟩

/-- From a state whose encrypter and decrypter for `K` hold the same chaining value, an
encryption followed by the decryption of its ciphertext returns the plaintext, and both
then hold the last ciphertext block. -/
theorem pair_of_Synced (s : State) (P K iv : List Byte) (h : Synced s K iv) :
    ∃ C s1 s2, AesEncrypt s P K = (.ok (some C, none), s1) ∧
      AesDecrypt s1 C K = (.ok (some P, none), s2) ∧
      Synced s2 K (C.drop (C.length - 16)) := by
  obtain ⟨v, d, e, c, hl, hs, hb, hd, he, hde, hhd, hhe, hiv⟩ := h
  obtain ⟨D, hD, hDl, hU⟩ := padding16 P
  obtain ⟨h1, h2⟩ := length_encryptBlocks c (P.length / 16 + 1) iv D hiv hDl
  have hsnd := encryptBlocks_snd c (P.length / 16) iv D hiv hDl
  have hE := AesEncrypt_hit s P K v e { b := c, blockSize := 16, iv := iv } hl hs hb he hhe rfl hiv
    D hD _ hDl
  have hdec := decryptBlocks_encryptBlocks c _ iv D hiv hDl
  simp only [] at hE
  generalize encryptBlocks c 16 (P.length / 16 + 1) iv D = r at h1 h2 hsnd hE hdec
  have hdlt : d < s.heap.length := by
    by_contra hc
    rw [List.getElem?_eq_none (by omega)] at hhd
    cases hhd
  have helt : e < s.heap.length := by
    by_contra hc
    rw [List.getElem?_eq_none (by omega)] at hhe
    cases hhe
  have hhd1 : (s.heap.set e (.cbcEncrypter { b := c, blockSize := 16, iv := r.2 }))[d]? =
      some (.cbcDecrypter { b := c, blockSize := 16, iv := iv }) := by
    rw [List.getElem?_set, if_neg (Ne.symm hde), hhd]
  have hDec := (AesDecrypt_hit
    { s with heap := s.heap.set e (.cbcEncrypter { b := c, blockSize := 16, iv := r.2 }) }
    r.1 K v d { b := c, blockSize := 16, iv := iv } hl hs hd hhd1 rfl hiv _ h1).1 P
    (by rw [hdec]; exact hU)
  simp only [hdec] at hDec
  refine ⟨_, _, _, hE, hDec, ?_⟩
  have hlast : List.drop (r.1.length - 16) r.1 = r.2 := by
    rw [hsnd, h1, show 16 * (P.length / 16 + 1) - 16 = 16 * (P.length / 16) by omega]
  rw [hlast]
  refine ⟨v, d, e, c, hl, hs, hb, hd, he, hde, ?_, ?_, h2⟩
  · simp only [List.getElem?_set, List.length_set, if_true]
    rw [if_pos hdlt]
  · simp only [List.getElem?_set, if_neg hde, if_true]
    rw [if_pos helt]

theorem pair_of_Ready (s : State) (P K iv : List Byte) (h : Ready s K iv) :
    ∃ C s1 s2, AesEncrypt s P K = (.ok (some C, none), s1) ∧
      AesDecrypt s1 C K = (.ok (some P, none), s2) ∧
      Synced s2 K (C.drop (C.length - 16)) := by
  obtain ⟨v, s0, hg, hl, hsync⟩ := h
  obtain ⟨C, s1, s2, hE, hD, hS⟩ := pair_of_Synced s0 P K iv hsync
  exact ⟨C, s1, s2, by rw [AesEncrypt_of_getBlock s s0 P K v hg hl, hE], hD, hS⟩

theorem encDecPairs_of_Ready (K : List Byte) (Ps : List (List Byte)) (s : State) (iv : List Byte)
    (h : Ready s K iv) :
    (encDecPairs s K Ps).1.map Prod.snd = Ps.map (fun P => Outcome.ok (some P, none)) ∧
      Ready (encDecPairs s K Ps).2 K (lastChain iv (encDecPairs s K Ps).1) := by
  induction Ps generalizing s iv with
  | nil => exact ⟨rfl, h⟩
  | cons P Ps ih =>
    obtain ⟨C, s1, s2, hE, hD, hS⟩ := pair_of_Ready s P K iv h
    obtain ⟨ih1, ih2⟩ := ih s2 _ (Ready_of_Synced s2 K _ hS)
    have hrun : encDecPairs s K (P :: Ps) =
        ((.ok (some C, none), .ok (some P, none)) :: (encDecPairs s2 K Ps).1,
          (encDecPairs s2 K Ps).2) := by
      rw [encDecPairs, hE]
      simp only [hD]
    rw [hrun]
    refine ⟨?_, ih2⟩
    rw [List.map_cons, List.map_cons, ih1]

/-- One goroutine running `getBlock` alone goes through its statements to the result and the
state of the sequential `getBlock`. -/
theorem runSchedule_single_eq_getBlock (s s1 : State) (key : List Byte) (v : blockInfo)
    (h : getBlock s key = (.ok v, s1)) :
    runSchedule key (Config.start s 1) [0, 0, 0, 0, 0] =
      { state := s1, lock := false, threads := [.returned v] } := by
  cases hl : s.keyMap.lookup key with
  | some w =>
    rw [getBlock_hit s key w hl] at h
    cases h
    simp [runSchedule, Config.start, stepThread, hl]
  | none =>
    by_cases hk : validKey key
    · rw [getBlock_miss_valid s key hl hk] at h
      cases h
      have hlen : ¬ key.length < 16 := by unfold validKey at hk; omega
      have hiv : (key.take 16).length = 16 := by
        rw [List.length_take]; unfold validKey at hk; omega
      simp [runSchedule, Config.start, stepThread, hl, NewCipher_valid key hk, BlockSize,
        NewCBCDecrypter, NewCBCEncrypter, hiv, hlen]
    · rw [getBlock_miss_invalid s key hl hk] at h
      cases h
      simp [runSchedule, Config.start, stepThread, hl, NewCipher_invalid key hk]

/-! ## The claims -/

/-- C1, checked on the code at a failing input. In a fresh process with the key
`"0123456789abcdef"`, after one earlier `AesEncrypt("hello world", key)` whose ciphertext is
not decrypted, a second `AesEncrypt("hello world", key)` returns a ciphertext, and
`AesDecrypt` of that ciphertext with the same key does not return `"hello world"`: it
panics in `_PKCS5UnPadding`. -/
theorem C1_roundtrip_fails_after_earlier_encrypt :
    (AesEncrypt (AesEncrypt State.init helloWorld key16).2 helloWorld key16).1 =
        .ok (some [0x4b, 0x43, 0x82, 0x00, 0x10, 0x9d, 0x3f, 0x05, 0xf9, 0xcf, 0xb0, 0x45, 0x1c,
          0x21, 0xc6, 0xfe], none) ∧
      (AesDecrypt (AesEncrypt (AesEncrypt State.init helloWorld key16).2 helloWorld key16).2
          [0x4b, 0x43, 0x82, 0x00, 0x10, 0x9d, 0x3f, 0x05, 0xf9, 0xcf, 0xb0, 0x45, 0x1c,
            0x21, 0xc6, 0xfe] key16).1 =
        .panic "runtime error: slice bounds out of range" := by
  decide!

/-- C2, checked on the code at a failing input. In a fresh process, two calls
`AesEncrypt("hello world", "0123456789abcdef")` in a row return different ciphertexts: the
second call starts from the chaining value the first one left in the cached encrypter. -/
theorem C2_second_encrypt_differs :
    (AesEncrypt State.init helloWorld key16).1 =
        .ok (some [0xc1, 0xe9, 0xb4, 0x52, 0x9a, 0xac, 0x97, 0x93, 0x01, 0x0f, 0x46, 0x77, 0xf6,
          0x35, 0x8e, 0xfe], none) ∧
      (AesEncrypt (AesEncrypt State.init helloWorld key16).2 helloWorld key16).1 =
        .ok (some [0x4b, 0x43, 0x82, 0x00, 0x10, 0x9d, 0x3f, 0x05, 0xf9, 0xcf, 0xb0, 0x45, 0x1c,
          0x21, 0xc6, 0xfe], none) ∧
      (AesEncrypt State.init helloWorld key16).1 ≠
        (AesEncrypt (AesEncrypt State.init helloWorld key16).2 helloWorld key16).1 := by
  decide!

/-- C3. In every reachable state, `AesEncrypt` returns an error exactly when the key length
is not 16, 24 or 32; for such a key both `AesEncrypt` and `AesDecrypt` return the nil slice
together with the error of `aes.NewCipher`. -/
theorem C3_error_iff_invalid_key (s : State) (P C K : List Byte) (h : Reachable s) :
    ((∃ r msg, (AesEncrypt s P K).1 = .ok (r, some msg)) ↔ ¬ validKey K) ∧
      (¬ validKey K →
        (AesEncrypt s P K).1 =
            .ok (none, some ("crypto/aes: invalid key size " ++ toString K.length)) ∧
          (AesDecrypt s C K).1 =
            .ok (none, some ("crypto/aes: invalid key size " ++ toString K.length))) := by
  have hwf := Reachable.wf s h
  have hinv : ¬ validKey K →
      (AesEncrypt s P K).1 =
          .ok (none, some ("crypto/aes: invalid key size " ++ toString K.length)) ∧
        (AesDecrypt s C K).1 =
          .ok (none, some ("crypto/aes: invalid key size " ++ toString K.length)) := by
    intro hk
    have hl := WF_lookup_none_of_invalid s K hwf hk
    rw [AesEncrypt_invalid s P K hl hk, AesDecrypt_invalid s C K hl hk]
    exact ⟨rfl, rfl⟩
  refine ⟨⟨?_, fun hk => ⟨none, _, (hinv hk).1⟩⟩, hinv⟩
  rintro ⟨r, msg, hr⟩ hk
  obtain ⟨C', s', he, -, -⟩ := AesEncrypt_valid s P K hwf hk
  rw [he] at hr
  cases hr

/-- C3 at a fresh process, the plaintext `"hello world"` and the 3-byte key `[1, 2, 3]`. -/
theorem C3_error_iff_invalid_key_witness :
    Reachable State.init ∧
      (((∃ r msg, (AesEncrypt State.init helloWorld [1, 2, 3]).1 = .ok (r, some msg)) ↔
          ¬ validKey [1, 2, 3]) ∧
        (¬ validKey [1, 2, 3] →
          (AesEncrypt State.init helloWorld [1, 2, 3]).1 =
              .ok (none, some ("crypto/aes: invalid key size " ++
                toString ([1, 2, 3] : List Byte).length)) ∧
            (AesDecrypt State.init helloWorld [1, 2, 3]).1 =
              .ok (none, some ("crypto/aes: invalid key size " ++
                toString ([1, 2, 3] : List Byte).length)))) :=
  ⟨Reachable.init,
    C3_error_iff_invalid_key State.init helloWorld helloWorld [1, 2, 3] Reachable.init⟩

/-- C4 as stated fails: in a fresh process `AesDecrypt` of the 3-byte ciphertext `[1, 2, 3]`
with the key `"0123456789abcdef"` returns no error value, it panics. -/
theorem C4_ragged_ciphertext_returns_no_error :
    (AesDecrypt State.init [1, 2, 3] key16).1 = .panic "crypto/cipher: input not full blocks" ∧
      ¬ ∃ r msg, (AesDecrypt State.init [1, 2, 3] key16).1 = .ok (r, some msg) := by
  have h : (AesDecrypt State.init [1, 2, 3] key16).1 =
      .panic "crypto/cipher: input not full blocks" := by decide!
  refine ⟨h, ?_⟩
  rintro ⟨r, msg, hr⟩
  rw [h] at hr
  cases hr

/-- C4, amended. In every reachable state, for a key of 16, 24 or 32 bytes and a ciphertext
whose length is not a multiple of 16, `AesDecrypt` does not return: `CryptBlocks` panics with
"crypto/cipher: input not full blocks", before any byte is decrypted or indexed. -/
theorem C4_ragged_ciphertext_panics (s : State) (C K : List Byte) (h : Reachable s)
    (hk : validKey K) (hC : C.length % 16 ≠ 0) :
    (AesDecrypt s C K).1 = .panic "crypto/cipher: input not full blocks" := by
  obtain ⟨v, s1, hg, hl, hwf, -⟩ := getBlock_valid s K (Reachable.wf s h) hk
  obtain ⟨-, hs, -, d, e, x, y, hd, -, hhd, -, hxb, -⟩ := hwf K v hl
  rw [AesDecrypt_of_getBlock s s1 C K v hg hl,
    AesDecrypt_hit_ragged s1 C K v d x hl hs hd hhd hxb hC]

/-- C4 amended, at a fresh process, the key `"0123456789abcdef"` and an 11-byte ciphertext. -/
theorem C4_ragged_ciphertext_panics_witness :
    Reachable State.init ∧ validKey key16 ∧ helloWorld.length % 16 ≠ 0 ∧
      (AesDecrypt State.init helloWorld key16).1 =
        .panic "crypto/cipher: input not full blocks" :=
  ⟨Reachable.init, by decide, by decide,
    C4_ragged_ciphertext_panics State.init helloWorld key16 Reachable.init (by decide) (by decide)⟩

/-- C5. In every reachable state, for a key of 16, 24 or 32 bytes, `AesEncrypt` returns a
ciphertext of `len(P) + (16 - len(P) mod 16)` bytes: a positive multiple of 16 greater
than `len(P)`. -/
theorem C5_ciphertext_length (s : State) (P K : List Byte) (h : Reachable s)
    (hk : validKey K) :
    ∃ C, (AesEncrypt s P K).1 = .ok (some C, none) ∧
      C.length = P.length + (16 - P.length % 16) ∧
      C.length % 16 = 0 ∧ 0 < C.length ∧ P.length < C.length := by
  obtain ⟨C, s', he, hlen, -⟩ := AesEncrypt_valid s P K (Reachable.wf s h) hk
  refine ⟨C, by rw [he], ?_, ?_, ?_, ?_⟩ <;> omega

/-- C5 at a fresh process: the 11-byte plaintext `"hello world"` under the key
`"0123456789abcdef"` gives a ciphertext of `11 + (16 - 11 mod 16) = 16` bytes. -/
theorem C5_ciphertext_length_witness :
    Reachable State.init ∧ validKey key16 ∧
      ∃ C, (AesEncrypt State.init helloWorld key16).1 = .ok (some C, none) ∧
        C.length = helloWorld.length + (16 - helloWorld.length % 16) ∧
        C.length % 16 = 0 ∧ 0 < C.length ∧ helloWorld.length < C.length :=
  ⟨Reachable.init, by decide,
    C5_ciphertext_length State.init helloWorld key16 Reachable.init (by decide)⟩

/-- C6. For a positive block size `n`, `_PKCS5Padding(P, n)` returns `P` followed by padding,
of length `len(P) + (n - len(P) mod n)`: a multiple of `n` that exceeds `len(P)` by at least
1 and at most `n`, and by exactly `n` when `len(P)` is a multiple of `n`. -/
theorem C6_padding_length (P : List Byte) (n : Int) (hn : 0 < n) :
    ∃ r, _PKCS5Padding P n = .ok r ∧ P <+: r ∧
      (r.length : Int) = P.length + (n - (P.length : Int) % n) ∧
      (r.length : Int) % n = 0 ∧
      P.length + 1 ≤ r.length ∧ (r.length : Int) ≤ P.length + n ∧
      ((P.length : Int) % n = 0 → (r.length : Int) = P.length + n) :=
  padding_spec P n hn

/-- C6 at the 11 bytes of `"hello world"` and the block size 16. -/
theorem C6_padding_length_witness :
    (0 : Int) < 16 ∧
      ∃ r, _PKCS5Padding helloWorld 16 = .ok r ∧ helloWorld <+: r ∧
        (r.length : Int) = helloWorld.length + (16 - (helloWorld.length : Int) % 16) ∧
        (r.length : Int) % 16 = 0 ∧
        helloWorld.length + 1 ≤ r.length ∧ (r.length : Int) ≤ helloWorld.length + 16 ∧
        ((helloWorld.length : Int) % 16 = 0 → (r.length : Int) = helloWorld.length + 16) :=
  ⟨by decide, C6_padding_length helloWorld 16 (by decide)⟩

/-- C7. For a block size `n` with `1 ≤ n ≤ 255`, `_PKCS5UnPadding` of the result of
`_PKCS5Padding(P, n)` returns `P`; neither call panics. -/
theorem C7_unpadding_of_padding (P : List Byte) (n : Int) (h1 : 1 ≤ n) (h2 : n ≤ 255) :
    ∃ r, _PKCS5Padding P n = .ok r ∧ _PKCS5UnPadding r = .ok P :=
  unpadding_padding P n h1 h2

/-- C7 at the empty byte sequence and the block size 255. -/
theorem C7_unpadding_of_padding_witness :
    (1 : Int) ≤ 255 ∧ (255 : Int) ≤ 255 ∧
      ∃ r, _PKCS5Padding [] 255 = .ok r ∧ _PKCS5UnPadding r = .ok [] :=
  ⟨by decide, by decide, C7_unpadding_of_padding [] 255 (by decide) (by decide)⟩

/-- C8. In every reachable state, a call of `AesEncrypt` or `AesDecrypt` with a key whose
length is not 16, 24 or 32 returns the error and leaves the state as it was: `keyMap` holds
no entry for the key before or after, so every later call, with this key or another one,
behaves as if the failing call had not happened. -/
theorem C8_invalid_key_leaves_state (s : State) (P C K : List Byte) (h : Reachable s)
    (hk : ¬ validKey K) :
    (AesEncrypt s P K).2 = s ∧ (AesDecrypt s C K).2 = s ∧
      s.keyMap.lookup K = none ∧ (getBlock s K).2 = s ∧
      (∃ msg, ∀ P' C', (AesEncrypt (AesEncrypt s P K).2 P' K).1 = .ok (none, some msg) ∧
        (AesDecrypt (AesDecrypt s C K).2 C' K).1 = .ok (none, some msg)) ∧
      (∀ P' K', AesEncrypt (AesEncrypt s P K).2 P' K' = AesEncrypt s P' K' ∧
        AesEncrypt (AesDecrypt s C K).2 P' K' = AesEncrypt s P' K' ∧
        AesDecrypt (AesEncrypt s P K).2 P' K' = AesDecrypt s P' K' ∧
        AesDecrypt (AesDecrypt s C K).2 P' K' = AesDecrypt s P' K') := by
  have hl := WF_lookup_none_of_invalid s K (Reachable.wf s h) hk
  have hE : ∀ P', AesEncrypt s P' K =
      (.ok (none, some ("crypto/aes: invalid key size " ++ toString K.length)), s) :=
    fun P' => AesEncrypt_invalid s P' K hl hk
  have hD : ∀ C', AesDecrypt s C' K =
      (.ok (none, some ("crypto/aes: invalid key size " ++ toString K.length)), s) :=
    fun C' => AesDecrypt_invalid s C' K hl hk
  refine ⟨by rw [hE], by rw [hD], hl, by rw [getBlock_miss_invalid s K hl hk],
    ⟨"crypto/aes: invalid key size " ++ toString K.length, ?_⟩, ?_⟩
  · intro P' C'
    rw [hE P, hD C, hE P', hD C']
    exact ⟨rfl, rfl⟩
  · intro P' K'
    rw [hE P, hD C]
    exact ⟨rfl, rfl, rfl, rfl⟩

/-- C8 in the state after one successful encryption, with the 3-byte key `[1, 2, 3]`. -/
theorem C8_invalid_key_leaves_state_witness :
    Reachable (AesEncrypt State.init helloWorld key16).2 ∧ ¬ validKey [1, 2, 3] ∧
      (AesEncrypt (AesEncrypt State.init helloWorld key16).2 helloWorld [1, 2, 3]).2 =
        (AesEncrypt State.init helloWorld key16).2 :=
  ⟨Reachable.encrypt _ _ _ Reachable.init, by decide,
    (C8_invalid_key_leaves_state (AesEncrypt State.init helloWorld key16).2 helloWorld helloWorld
      [1, 2, 3] (Reachable.encrypt _ _ _ Reachable.init) (by decide)).1⟩

/-- C9, checked on the code at a failing schedule. Two goroutines call `getBlock` with the
same uncached key `"0123456789abcdef"`; both read `keyMap` before either writes it. Both then
construct a context: the heap ends with four block modes, the two goroutines return
different instances, and `keyMap` keeps the one stored last. -/
theorem C9_two_misses_construct_twice :
    (runSchedule key16 (Config.start State.init 2) [0, 1, 0, 0, 0, 0, 1, 1, 1, 1]).results =
        [{ errMsg := "", success := true, blockSize := 16, decryptor := some 0,
           encryptor := some 1 },
         { errMsg := "", success := true, blockSize := 16, decryptor := some 2,
           encryptor := some 3 }] ∧
      (runSchedule key16 (Config.start State.init 2)
        [0, 1, 0, 0, 0, 0, 1, 1, 1, 1]).state.heap.length = 4 ∧
      (runSchedule key16 (Config.start State.init 2)
        [0, 1, 0, 0, 0, 0, 1, 1, 1, 1]).state.keyMap.lookup key16 =
        some { errMsg := "", success := true, blockSize := 16, decryptor := some 2,
               encryptor := some 3 } := by
  decide!

/-- C10. From a fresh process and for a key of 16, 24 or 32 bytes, when every
`AesEncrypt(P, K)` is immediately followed by `AesDecrypt` of its ciphertext with `K`, every
decryption returns its plaintext. The encrypter and the decrypter that `getBlock` hands to
the next call hold the same chaining value: the first 16 bytes of `K` before the first pair,
the last block of the last ciphertext after each pair. -/
theorem C10_paired_calls_roundtrip (K : List Byte) (Ps : List (List Byte)) (hk : validKey K) :
    (encDecPairs State.init K Ps).1.map Prod.snd =
        Ps.map (fun P => Outcome.ok (some P, none)) ∧
      chainingValues (getBlock (encDecPairs State.init K Ps).2 K).2 K =
        some (lastChain (K.take 16) (encDecPairs State.init K Ps).1,
          lastChain (K.take 16) (encDecPairs State.init K Ps).1) := by
  obtain ⟨h1, v, s1, hg, -, hs⟩ := encDecPairs_of_Ready K Ps State.init _ (Ready_init K hk)
  refine ⟨h1, ?_⟩
  rw [hg]
  exact chainingValues_of_Synced s1 K _ hs

/-- C10 at the key `"0123456789abcdef"` and the plaintexts `"hello world"`, the empty one and
`"hello world"` again. -/
theorem C10_paired_calls_roundtrip_witness :
    validKey key16 ∧
      (encDecPairs State.init key16 [helloWorld, [], helloWorld]).1.map Prod.snd =
        [helloWorld, [], helloWorld].map (fun P => Outcome.ok (some P, none)) ∧
      chainingValues
          (getBlock (encDecPairs State.init key16 [helloWorld, [], helloWorld]).2 key16).2 key16 =
        some (lastChain (key16.take 16)
            (encDecPairs State.init key16 [helloWorld, [], helloWorld]).1,
          lastChain (key16.take 16)
            (encDecPairs State.init key16 [helloWorld, [], helloWorld]).1) :=
  ⟨by decide, C10_paired_calls_roundtrip key16 [helloWorld, [], helloWorld] (by decide)⟩

end Cryptos
